import Mathlib

/-!
Shallow embedding of the ink! smart contract `ipfs_ks`
(src/contracts/ipfs_ks/lib.rs) from gollum18/hackusama-2020.

Modelling conventions:
* `AccountId` and `Hash` (opaque fixed-size identifiers supplied by the
  host) are modelled as `Nat`.
* `Balance` is `u128` in the source; balances are stored as `Int` here so
  that non-negativity is a provable property of the reachable states
  rather than a typing artefact.  The one arithmetic operation that can
  overflow a `u128` — the unchecked `balance + value` in `deposit` — is
  modelled with an explicit reduction modulo `2 ^ 128`, the behaviour of
  the release build the contract is deployed as.
* The per-file operation counter is `i32` in the source; it is modelled
  as `Int`.  Its only mutation is the increment in `write_file` and
  `read_file`, modelled as exact `+ 1`; this agrees with the `i32`
  value on every state reachable by fewer than `2 ^ 31` operations.
* The two ink `HashMap`s are modelled as association lists with
  `mapGet` / `mapInsert` mirroring `get` / `insert` (insert replaces an
  existing binding in place).
* `self.env().caller()` and `self.env().block_timestamp()` are explicit
  parameters of each operation.
* Fallible code is modelled with `Option`: the `.unwrap()` calls in
  `charge`, `write_file` and `read_file` return `none` when the record
  is absent, and `none` propagates to the operation result, standing for
  a panic that crosses the message boundary.
* Emitted events are returned as a list alongside the result and the
  new state; a failed call returns the empty list.
-/

/-- Account identifier (`AccountId` in the source, an opaque host-supplied id). -/
abbrev AccountId := Nat

/-- Content hash (`Hash` in the source). -/
abbrev Hash := Nat

/-- Host-supplied block timestamp (`Timestamp` in the source). -/
abbrev Timestamp := Nat

/-- The operation kinds priced by `charge` (enum `TxOp` in the source). -/
inductive TxOp
| Create
| Read
| Write
deriving DecidableEq

/-- The four ink events the contract can emit, with their topics. -/
inductive Event
| FileCreated (owner : AccountId) (hash : Hash) (ts : Timestamp)
| FileRemoved (hash : Hash) (ts : Timestamp)
| FileModified (hash : Hash) (ts : Timestamp)
| FileRead (hash : Hash) (ts : Timestamp)
deriving DecidableEq

/-- `HashMap::get`: the value bound to `k`, if any. -/
def mapGet {α : Type} (m : List (Nat × α)) (k : Nat) : Option α :=
  match m with
  | [] => none
  | (k', v) :: rest => if k' = k then some v else mapGet rest k

/-- `HashMap::insert`: bind `k` to `v`, replacing an existing binding in place. -/
def mapInsert {α : Type} (m : List (Nat × α)) (k : Nat) (v : α) : List (Nat × α) :=
  match m with
  | [] => [(k, v)]
  | (k', v') :: rest =>
    if k' = k then (k, v) :: rest else (k', v') :: mapInsert rest k v

/-- The contract storage (struct `IpfsKs`): the balance ledger and the file
registry.  A file record is `(owner, number of ops performed on it)`. -/
structure IpfsKs where
  balances : List (AccountId × Int)
  files : List (Hash × (AccountId × Int))
deriving DecidableEq

/-- The constructor `new`: both maps empty. -/
def IpfsKs.new : IpfsKs := { balances := [], files := [] }

/-- Message `num_users`: number of ledger entries. -/
def IpfsKs.num_users (s : IpfsKs) : Nat := s.balances.length

/-- Message `num_files`: number of registry entries. -/
def IpfsKs.num_files (s : IpfsKs) : Nat := s.files.length

/-- Message `is_user_registered`: whether the ledger has an entry for `account`. -/
def IpfsKs.is_user_registered (s : IpfsKs) (account : AccountId) : Bool :=
  (mapGet s.balances account).isSome

/-- Helper `balance_or_zero`: the stored balance, or 0 when absent. -/
def IpfsKs.balance_or_zero (s : IpfsKs) (owner : AccountId) : Int :=
  (mapGet s.balances owner).getD 0

/-- Message `register`: fails if the account already has a ledger entry,
otherwise stores `initial_balance` (a `u128`, hence a `Nat` here). -/
def IpfsKs.register (s : IpfsKs) (account : AccountId) (initial_balance : Nat) :
    Bool × IpfsKs :=
  if s.is_user_registered account then (false, s)
  else (true, { s with balances := mapInsert s.balances account (initial_balance : Int) })

/-- Message `deposit`: fails if the caller is unregistered; otherwise adds
`value` to the caller balance.  The source uses an unchecked `u128` addition,
which reduces modulo `2 ^ 128` when overflow checks are off. -/
def IpfsKs.deposit (s : IpfsKs) (caller : AccountId) (value : Nat) : Bool × IpfsKs :=
  if (mapGet s.balances caller).isSome = false then (false, s)
  else
    let balance := s.balance_or_zero caller
    (true, { s with
      balances := mapInsert s.balances caller ((balance + (value : Int)) % (2 ^ 128)) })

/-- Message `withdraw`: returns 0 with no mutation if the caller is
unregistered or `value` exceeds the balance; otherwise subtracts `value`
and returns it. -/
def IpfsKs.withdraw (s : IpfsKs) (caller : AccountId) (value : Nat) : Nat × IpfsKs :=
  if (mapGet s.balances caller).isSome = false then (0, s)
  else
    let balance := s.balance_or_zero caller
    if (value : Int) > balance then (0, s)
    else (value, { s with balances := mapInsert s.balances caller (balance - (value : Int)) })

/-- Message `balance`: the caller balance, 0 when unregistered. -/
def IpfsKs.balance (s : IpfsKs) (caller : AccountId) : Int :=
  if (mapGet s.balances caller).isSome = false then 0
  else s.balance_or_zero caller

/-- Number of binary digits of `n` (0 for 0), driven by a structural fuel
argument (the fuel `n` always suffices) so that it evaluates by kernel
reduction. -/
def bitlenAux : Nat → Nat → Nat
  | 0, _ => 0
  | fuel + 1, n => if n = 0 then 0 else bitlenAux fuel (n / 2) + 1

/-- Number of binary digits of `n`; `bitlen n = Nat.log2 n + 1` for `n > 0`. -/
def bitlen (n : Nat) : Nat := bitlenAux n n

/-- A binary32 (`f32`) value represented exactly as a dyadic rational
`m * 2 ^ e`.  The representation is not normalised; every arithmetic step
re-rounds to 24 significant bits, which is all IEEE-754 requires for the
magnitudes this contract produces (every nonzero value it meets lies far
inside the normal range, so neither subnormal rounding nor the infinity
threshold can change any result — overflow to infinity and the saturating
cast below agree). -/
abbrev F32 := Int × Int

/-- Round the dyadic `m * 2 ^ e` to 24 significant bits, to nearest with ties
to even: IEEE-754 binary32 rounding of an exact intermediate result. -/
def rne24 (m e : Int) : F32 :=
  if m = 0 then (0, 0)
  else
    let n := m.natAbs
    let b := bitlen n
    if b ≤ 24 then (m, e)
    else
      let s := b - 24
      let q := n / 2 ^ s
      let r := n % 2 ^ s
      let half := 2 ^ (s - 1)
      let q2 := if half < r then q + 1
        else if r < half then q
        else if q % 2 = 0 then q else q + 1
      (if m < 0 then -(q2 : Int) else (q2 : Int), e + s)

/-- `t as f32` on an integer: round it to binary32. -/
def f32OfInt (t : Int) : F32 := rne24 t 0

/-- Binary32 multiplication: the exact product of the operands, rounded. -/
def f32Mul (a b : F32) : F32 := rne24 (a.1 * b.1) (a.2 + b.2)

/-- Binary32 addition: the exact sum of the operands, rounded. -/
def f32Add (a b : F32) : F32 :=
  let e := min a.2 b.2
  rne24 (a.1 * 2 ^ (a.2 - e).toNat + b.1 * 2 ^ (b.2 - e).toNat) e

/-- The `f32` literal `1.07` of the source: the nearest binary32 to `107/100`
is `8975811 * 2 ^ -23 = 1.07000005245...`, about `5.2e-8` above the exact
value.  This excess is what makes the computed cost drift away from
`floor(base + 1.07 * t)` at large access counts. -/
def f32lit107 : F32 := (8975811, -23)

/-- `as u128` on a binary32 value: truncation toward zero, with values below
zero and above the `u128` range saturating to the bounds. -/
def f32ToU128 (a : F32) : Nat :=
  if a.1 < 0 then 0
  else
    let v := if 0 ≤ a.2 then a.1.toNat * 2 ^ a.2.toNat else a.1.toNat / 2 ^ (-a.2).toNat
    min v (2 ^ 128 - 1)

/-- The cost the source computes in `f32` as `(base_cost + 1.07 * t) as u128`
with `base_cost` 3.0 for Create and Write and 2.0 for Read and `t` the record
access count.  Modelled bit-exactly: the count is rounded to binary32,
multiplied by the binary32 literal 1.07 and added to the base, rounding after
each operation, and the sum is cast to `u128` by truncation.  The result
agrees with `floor(3 + 1.07 * t)` for small counts (3, 4, 5 at `t` = 0, 1, 2)
but not everywhere: the first Write divergence is at `t = 116257`, where the
`f32` value is one above the floor formula, and from `t = 15679643` it falls
one below it. -/
def IpfsKs.cost (op : TxOp) (t : Int) : Nat :=
  let base : F32 := match op with
    | TxOp.Create => (3, 0)
    | TxOp.Read => (2, 0)
    | TxOp.Write => (3, 0)
  f32ToU128 (f32Add base (f32Mul f32lit107 (f32OfInt t)))

/-- Private method `charge`: prices `op` from the access count of the file
record — via `self.files.get(&hash).unwrap()`, which panics (`none`) when no
record exists — then debits the account if the balance suffices.  Returns
`some (false, s)` with no mutation when the cost exceeds the balance. -/
def IpfsKs.charge (s : IpfsKs) (account : AccountId) (hash : Hash) (op : TxOp) :
    Option (Bool × IpfsKs) :=
  match mapGet s.files hash with
  | none => none
  | some stats =>
    let cost := IpfsKs.cost op stats.2
    let balance := s.balance_or_zero account
    if (cost : Int) > balance then some (false, s)
    else some (true, { s with balances := mapInsert s.balances account (balance - cost) })

/-- Message `add_file`: requires a registered caller and an unregistered hash,
then calls `charge(Create)` — before inserting the record — and on success
inserts `(caller, 0)` and emits `FileCreated`. -/
def IpfsKs.add_file (s : IpfsKs) (caller : AccountId) (hash : Hash) (ts : Timestamp) :
    Option (Bool × IpfsKs × List Event) :=
  if (mapGet s.balances caller).isSome = false then some (false, s, [])
  else if (mapGet s.files hash).isSome then some (false, s, [])
  else
    match s.charge caller hash TxOp.Create with
    | none => none
    | some (false, s') => some (false, s', [])
    | some (true, s') =>
      some (true,
        { s' with files := mapInsert s'.files hash (caller, 0) },
        [Event.FileCreated caller hash ts])

/-- Message `remove_file`: requires a registered caller and an existing record,
then emits `FileRemoved` and returns true — it never mutates either map. -/
def IpfsKs.remove_file (s : IpfsKs) (caller : AccountId) (hash : Hash) (ts : Timestamp) :
    Bool × IpfsKs × List Event :=
  if (mapGet s.balances caller).isSome = false then (false, s, [])
  else if (mapGet s.files hash).isSome = false then (false, s, [])
  else (true, s, [Event.FileRemoved hash ts])

/-- Message `write_file`: requires a registered caller and an existing record,
charges `Write`, then re-reads the record (a second `.unwrap()`), increments
its counter and emits `FileModified`. -/
def IpfsKs.write_file (s : IpfsKs) (caller : AccountId) (hash : Hash) (ts : Timestamp) :
    Option (Bool × IpfsKs × List Event) :=
  if (mapGet s.balances caller).isSome = false then some (false, s, [])
  else if (mapGet s.files hash).isSome = false then some (false, s, [])
  else
    match s.charge caller hash TxOp.Write with
    | none => none
    | some (false, s') => some (false, s', [])
    | some (true, s') =>
      match mapGet s'.files hash with
      | none => none
      | some stats =>
        some (true,
          { s' with files := mapInsert s'.files hash (stats.1, stats.2 + 1) },
          [Event.FileModified hash ts])

/-- Message `read_file`: like `write_file` but charges `Read` and emits
`FileRead`. -/
def IpfsKs.read_file (s : IpfsKs) (caller : AccountId) (hash : Hash) (ts : Timestamp) :
    Option (Bool × IpfsKs × List Event) :=
  if (mapGet s.balances caller).isSome = false then some (false, s, [])
  else if (mapGet s.files hash).isSome = false then some (false, s, [])
  else
    match s.charge caller hash TxOp.Read with
    | none => none
    | some (false, s') => some (false, s', [])
    | some (true, s') =>
      match mapGet s'.files hash with
      | none => none
      | some stats =>
        some (true,
          { s' with files := mapInsert s'.files hash (stats.1, stats.2 + 1) },
          [Event.FileRead hash ts])

/-- Replace the owner stored in the record for `hash`, keeping its access
count; the identity when no record exists.  Two states that differ only in the
owner of one record are exactly `s` and `s.setOwner hash o2`; the operation is
used to state that the chargeable operations never consult the owner field. -/
def IpfsKs.setOwner (s : IpfsKs) (hash : Hash) (o2 : AccountId) : IpfsKs :=
  match mapGet s.files hash with
  | none => s
  | some stats => { s with files := mapInsert s.files hash (o2, stats.2) }

/-- One public mutating call together with its host-supplied caller identity
and block timestamp: the alphabet of the operation sequences that define the
reachable states. -/
inductive Op
| register (account : AccountId) (initial_balance : Nat)
| deposit (caller : AccountId) (value : Nat)
| withdraw (caller : AccountId) (value : Nat)
| add_file (caller : AccountId) (hash : Hash) (ts : Timestamp)
| remove_file (caller : AccountId) (hash : Hash) (ts : Timestamp)
| write_file (caller : AccountId) (hash : Hash) (ts : Timestamp)
| read_file (caller : AccountId) (hash : Hash) (ts : Timestamp)

/-- The state after one public call.  A call that panics (`none`) traps, and
the host reverts the whole call, leaving the state unchanged. -/
def IpfsKs.step (s : IpfsKs) (op : Op) : IpfsKs :=
  match op with
  | Op.register a ib => (s.register a ib).2
  | Op.deposit c v => (s.deposit c v).2
  | Op.withdraw c v => (s.withdraw c v).2
  | Op.add_file c h ts =>
    match s.add_file c h ts with
    | none => s
    | some r => r.2.1
  | Op.remove_file c h ts => (s.remove_file c h ts).2.1
  | Op.write_file c h ts =>
    match s.write_file c h ts with
    | none => s
    | some r => r.2.1
  | Op.read_file c h ts =>
    match s.read_file c h ts with
    | none => s
    | some r => r.2.1

/-- The state reached from the freshly constructed contract by a sequence of
public calls. -/
def IpfsKs.run (ops : List Op) : IpfsKs :=
  ops.foldl IpfsKs.step IpfsKs.new

/-- Every entry of the balance ledger is non-negative. -/
def IpfsKs.allNonneg (s : IpfsKs) : Prop :=
  ∀ p ∈ s.balances, 0 ≤ p.2

/-- Modelled from the spec: the permission kinds of the per-record permission
table (spec 4.2).  The table is part of the unified design of the spec but is
missing from src/ — the spec records that the repository held a second,
permission-bearing draft merged into the consolidated model. -/
inductive PermKind
| Read
| Write
deriving DecidableEq

/-- Modelled from the spec: a permission entry, a `(can_read, can_write)` pair
of bits; absence of an entry means no permissions (spec 3). -/
structure PermissionEntry where
  can_read : Bool
  can_write : Bool
deriving DecidableEq

/-- Modelled from the spec: the permission table of one content record,
mapping account identity to its entry (spec 3 and 4.2). -/
abbrev PermTable := List (AccountId × PermissionEntry)

/-- Modelled from the spec (4.2): `has_permission` returns false when no entry
exists for the account, otherwise the requested bit. -/
def has_permission (tbl : PermTable) (account : AccountId) (kind : PermKind) : Bool :=
  match mapGet tbl account with
  | none => false
  | some e =>
    match kind with
    | PermKind.Read => e.can_read
    | PermKind.Write => e.can_write

/-- Modelled from the spec (4.2): `grant` creates an all-false entry when none
exists, then sets the requested bit; it always succeeds. -/
def grant (tbl : PermTable) (account : AccountId) (kind : PermKind) : Bool × PermTable :=
  let e := (mapGet tbl account).getD ⟨false, false⟩
  let e2 := match kind with
    | PermKind.Read => { e with can_read := true }
    | PermKind.Write => { e with can_write := true }
  (true, mapInsert tbl account e2)

/-- Modelled from the spec (4.2): `revoke` succeeds only when an entry exists;
it clears the requested bit and keeps the entry in place. -/
def revoke (tbl : PermTable) (account : AccountId) (kind : PermKind) : Bool × PermTable :=
  match mapGet tbl account with
  | none => (false, tbl)
  | some e =>
    let e2 := match kind with
      | PermKind.Read => { e with can_read := false }
      | PermKind.Write => { e with can_write := false }
    (true, mapInsert tbl account e2)

/-! ### Association-list lemmas -/

/-- Looking up the key just inserted yields the inserted value. -/
theorem mapGet_mapInsert_self {α : Type} (m : List (Nat × α)) (k : Nat) (v : α) :
    mapGet (mapInsert m k v) k = some v := by
  induction m with
  | nil => simp [mapGet, mapInsert]
  | cons p rest ih =>
    obtain ⟨k', v'⟩ := p
    by_cases h : k' = k <;> simp [mapGet, mapInsert, h, ih]

/-- Re-inserting at the same key overwrites the previous insertion. -/
theorem mapInsert_mapInsert_self {α : Type} (m : List (Nat × α)) (k : Nat) (v w : α) :
    mapInsert (mapInsert m k v) k w = mapInsert m k w := by
  induction m with
  | nil => simp [mapInsert]
  | cons p rest ih =>
    obtain ⟨k', v'⟩ := p
    by_cases h : k' = k <;> simp [mapInsert, h, ih]

/-- A successful lookup exhibits a member of the list. -/
theorem mapGet_mem {α : Type} {m : List (Nat × α)} {k : Nat} {v : α}
    (h : mapGet m k = some v) : (k, v) ∈ m := by
  induction m with
  | nil => simp [mapGet] at h
  | cons p rest ih =>
    obtain ⟨k', v'⟩ := p
    simp only [mapGet] at h
    by_cases hk : k' = k
    · rw [if_pos hk] at h
      cases h
      subst hk
      exact List.mem_cons_self _ _
    · rw [if_neg hk] at h
      exact List.mem_cons_of_mem _ (ih h)

/-- Every member of `mapInsert m k v` is `(k, v)` or a member of `m`. -/
theorem mem_mapInsert {α : Type} {m : List (Nat × α)} {k : Nat} {v : α} {p : Nat × α}
    (h : p ∈ mapInsert m k v) : p = (k, v) ∨ p ∈ m := by
  induction m with
  | nil => simpa [mapInsert] using h
  | cons q rest ih =>
    obtain ⟨k', v'⟩ := q
    by_cases hk : k' = k
    · simp only [mapInsert, if_pos hk] at h
      rcases List.mem_cons.mp h with h | h
      · exact Or.inl h
      · exact Or.inr (List.mem_cons_of_mem _ h)
    · simp only [mapInsert, if_neg hk] at h
      rcases List.mem_cons.mp h with h | h
      · exact Or.inr (h ▸ List.mem_cons_self _ _)
      · rcases ih h with h | h
        · exact Or.inl h
        · exact Or.inr (List.mem_cons_of_mem _ h)

/-! ### Claim theorems -/

/-- C1: the claim states that `add_file H` by a registered owner `O` with
balance at least 3 and no record for `H` returns true, inserts `(O, 0)`,
debits 3 and emits one `FileCreated` event.  On the code this success path is
unreachable: `add_file` invokes `charge(Create)` while the record for `H` is
still absent, and `charge` unconditionally unwraps `files.get(H)`, so the
call panics instead of succeeding.  Evaluated at the concrete failing input —
owner 1 registered with balance 100, fresh hash 5 — the model returns `none`
(the panic), not the claimed successful result. -/
theorem C1_add_file_panics_on_fresh_hash :
    (IpfsKs.new.register 1 100).2.add_file 1 5 0 = none := by
  rfl

/-- C2: the claim states that no public operation panics, in particular that
the unwrap inside `charge` is never reached with an absent record.  It is
reached: `add_file` calls `charge(Create)` exactly when the hash is absent
from the registry, so `charge` unwraps `None` and the panic propagates out of
`add_file`.  Evaluated at a concrete input: account 2 registered with balance
50, hash 9 absent. -/
theorem C2_charge_panics_on_absent_record :
    IpfsKs.charge { balances := [(2, 50)], files := [] } 2 9 TxOp.Create = none
  ∧ IpfsKs.add_file { balances := [(2, 50)], files := [] } 2 9 0 = none := by
  exact ⟨rfl, rfl⟩

/-- C3: with a registered caller and an existing record, `remove_file` returns
true, emits one `FileRemoved` event and leaves the whole state — the files map
with its record and access count, and every balance — unchanged; with an
unregistered caller or an absent record it returns false with no mutation and
no event. -/
theorem C3_remove_file_emits_but_never_mutates (s : IpfsKs) (caller : AccountId)
    (hash : Hash) (ts : Timestamp) :
    (s.is_user_registered caller = true → (mapGet s.files hash).isSome = true →
      s.remove_file caller hash ts = (true, s, [Event.FileRemoved hash ts]))
  ∧ (s.is_user_registered caller = false ∨ (mapGet s.files hash).isSome = false →
      s.remove_file caller hash ts = (false, s, [])) := by
  unfold IpfsKs.remove_file
  unfold IpfsKs.is_user_registered
  constructor
  · intro h1 h2
    simp [h1, h2]
  · intro h
    rcases h with h | h
    · simp [h]
    · by_cases hreg : (mapGet s.balances caller).isSome = false <;> simp [hreg, h]

/-- C3 witness: the property evaluated at a concrete state — caller 1
registered with balance 4, record `(5 ↦ (1, 2))` present; caller 2 not
registered. -/
theorem C3_remove_file_emits_but_never_mutates_witness :
    IpfsKs.remove_file { balances := [(1, 4)], files := [(5, (1, 2))] } 1 5 7
      = (true, { balances := [(1, 4)], files := [(5, (1, 2))] }, [Event.FileRemoved 5 7])
  ∧ IpfsKs.remove_file { balances := [(1, 4)], files := [(5, (1, 2))] } 2 5 7
      = (false, { balances := [(1, 4)], files := [(5, (1, 2))] }, []) := by
  exact ⟨(C3_remove_file_emits_but_never_mutates _ 1 5 7).1 (by decide) (by decide),
    (C3_remove_file_emits_but_never_mutates _ 2 5 7).2 (Or.inl (by decide))⟩

/-- `charge` on an existing record whose cost is covered by the balance:
debits the cost and reports success. -/
theorem charge_spec_success {s : IpfsKs} {account : AccountId} {hash : Hash}
    {op : TxOp} {o : AccountId} {t : Int}
    (hfile : mapGet s.files hash = some (o, t))
    (hbal : (IpfsKs.cost op t : Int) ≤ s.balance_or_zero account) :
    s.charge account hash op
      = some (true, IpfsKs.mk
          (mapInsert s.balances account (s.balance_or_zero account - IpfsKs.cost op t))
          s.files) := by
  unfold IpfsKs.charge
  rw [hfile]
  exact if_neg (not_lt.mpr hbal)

/-- `charge` on an existing record whose cost exceeds the balance: fails with
no mutation. -/
theorem charge_spec_insufficient {s : IpfsKs} {account : AccountId} {hash : Hash}
    {op : TxOp} {o : AccountId} {t : Int}
    (hfile : mapGet s.files hash = some (o, t))
    (hbal : s.balance_or_zero account < (IpfsKs.cost op t : Int)) :
    s.charge account hash op = some (false, s) := by
  unfold IpfsKs.charge
  rw [hfile]
  exact if_pos hbal

/-- C5 (amended): on an existing record with access count `t`, a registered
caller whose balance is below the computed cost — the value of the `f32`
expression, which is what the charge compares against the balance — gets
`false` from `read_file` and from `write_file`, with the entire state (every
balance and the access count) unchanged and no event emitted; the Read cost at
`t = 5` is 7, so a caller with balance 4 fails.  The claim identified the
computed cost with `floor(base + 1.07 * t)`; the hypothesis is amended to the
`f32` cost, which falls below the floor formula at large counts (the separate
counterexample theorem). -/
theorem C5_insufficient_funds_pure_failure (s : IpfsKs) (caller : AccountId)
    (hash : Hash) (ts : Timestamp) (o : AccountId) (t : Int)
    (hreg : s.is_user_registered caller = true)
    (hfile : mapGet s.files hash = some (o, t)) :
    (s.balance_or_zero caller < (IpfsKs.cost TxOp.Read t : Int) →
      s.read_file caller hash ts = some (false, s, []))
  ∧ (s.balance_or_zero caller < (IpfsKs.cost TxOp.Write t : Int) →
      s.write_file caller hash ts = some (false, s, []))
  ∧ IpfsKs.cost TxOp.Read 5 = 7 := by
  have hreg' : (mapGet s.balances caller).isSome = true := hreg
  have hfs : (mapGet s.files hash).isSome = true := by rw [hfile]; rfl
  refine ⟨?_, ?_, by decide⟩
  · intro hbal
    unfold IpfsKs.read_file
    rw [charge_spec_insufficient hfile hbal]
    simp [hreg', hfs]
  · intro hbal
    unfold IpfsKs.write_file
    rw [charge_spec_insufficient hfile hbal]
    simp [hreg', hfs]

/-- C5 witness: the claim example — caller 1 with balance 4, record for hash 5
with access count 5; the Read cost is 7 and the Write cost 8, so both calls
fail without mutation. -/
theorem C5_insufficient_funds_pure_failure_witness :
    IpfsKs.read_file { balances := [(1, 4)], files := [(5, (1, 5))] } 1 5 9
      = some (false, { balances := [(1, 4)], files := [(5, (1, 5))] }, [])
  ∧ IpfsKs.write_file { balances := [(1, 4)], files := [(5, (1, 5))] } 1 5 9
      = some (false, { balances := [(1, 4)], files := [(5, (1, 5))] }, []) := by
  exact ⟨(C5_insufficient_funds_pure_failure
      { balances := [(1, 4)], files := [(5, (1, 5))] } 1 5 9 1 5
      (by decide) (by decide)).1 (by decide),
    (C5_insufficient_funds_pure_failure
      { balances := [(1, 4)], files := [(5, (1, 5))] } 1 5 9 1 5
      (by decide) (by decide)).2.1 (by decide)⟩

/-- C5 counterexample: the claim as stated — whenever `floor(base + 1.07 * t)`
exceeds the balance the call fails with no mutation — is false at access
count 15679643: the floor formula for a Write is 16777221, but the `f32`
computation of the source gives 16777220, so a caller whose balance is
16777220 (one below the claimed cost) satisfies the claim hypothesis and yet
the write succeeds, debits the balance to 0, bumps the count and emits an
event. -/
theorem C5_floor_hypothesis_fails_at_15679643 :
    (300 + 107 * 15679643) / 100 = 16777221
  ∧ IpfsKs.cost TxOp.Write 15679643 = 16777220
  ∧ IpfsKs.write_file
        { balances := [(1, 16777220)], files := [(5, (1, 15679643))] } 1 5 0
      = some (true, { balances := [(1, 0)], files := [(5, (1, 15679644))] },
          [Event.FileModified 5 0]) := by
  refine ⟨by decide, by decide, by decide⟩

/-- C8: `withdraw` returns 0 with an unchanged ledger when the caller is not
registered or the amount exceeds the balance; otherwise it subtracts exactly
the amount from the caller balance and returns the amount. -/
theorem C8_withdraw_spec (s : IpfsKs) (caller : AccountId) (value : Nat) :
    (s.is_user_registered caller = false → s.withdraw caller value = (0, s))
  ∧ (s.is_user_registered caller = true → s.balance_or_zero caller < (value : Int) →
      s.withdraw caller value = (0, s))
  ∧ (s.is_user_registered caller = true → (value : Int) ≤ s.balance_or_zero caller →
      s.withdraw caller value
        = (value, IpfsKs.mk
            (mapInsert s.balances caller (s.balance_or_zero caller - (value : Int)))
            s.files)) := by
  unfold IpfsKs.withdraw
  unfold IpfsKs.is_user_registered
  refine ⟨?_, ?_, ?_⟩
  · intro h
    simp [h]
  · intro h hlt
    simp [h, hlt]
  · intro h hle
    rw [if_neg (by simp [h]), if_neg (not_lt.mpr hle)]

/-- C8 witness: the theorem applied to the state where account 1 holds 150 —
withdrawing 200 fails with no mutation, withdrawing 150 succeeds and leaves 0;
and to an unregistered caller, which gets 0. -/
theorem C8_withdraw_spec_witness :
    IpfsKs.withdraw { balances := [(1, 150)], files := [] } 1 200
      = (0, { balances := [(1, 150)], files := [] })
  ∧ IpfsKs.withdraw { balances := [(1, 150)], files := [] } 1 150
      = (150, { balances := [(1, 0)], files := [] })
  ∧ IpfsKs.withdraw { balances := [(1, 150)], files := [] } 2 10
      = (0, { balances := [(1, 150)], files := [] }) := by
  refine ⟨(C8_withdraw_spec { balances := [(1, 150)], files := [] } 1 200).2.1
      (by decide) (by decide), ?_,
    (C8_withdraw_spec { balances := [(1, 150)], files := [] } 2 10).1 (by decide)⟩
  rw [(C8_withdraw_spec { balances := [(1, 150)], files := [] } 1 150).2.2
    (by decide) (by decide)]
  rfl

set_option maxRecDepth 8000 in
/-- C9: the claim states that deposit uses checked addition and that
balance/access-count arithmetic never silently wraps.  The source adds with
the unchecked `+` on `u128`, which wraps modulo `2 ^ 128` in builds without
overflow checks (the deployed release profile): after `register(1, 2^128 - 1)`
a deposit of 1 by account 1 reports success and leaves the balance at 0. -/
theorem C9_deposit_unchecked_addition_wraps :
    (IpfsKs.new.register 1 (2 ^ 128 - 1)).2.deposit 1 1
      = (true, { balances := [(1, 0)], files := [] }) := by
  decide

/-- The success path of `write_file`: registered caller, existing record,
cost covered — debits the cost, bumps the count, emits `FileModified`. -/
theorem write_file_spec_success {s : IpfsKs} {caller : AccountId} {hash : Hash}
    {ts : Timestamp} {o : AccountId} {t : Int}
    (hreg : (mapGet s.balances caller).isSome = true)
    (hfile : mapGet s.files hash = some (o, t))
    (hbal : (IpfsKs.cost TxOp.Write t : Int) ≤ s.balance_or_zero caller) :
    s.write_file caller hash ts
      = some (true, IpfsKs.mk
          (mapInsert s.balances caller (s.balance_or_zero caller - IpfsKs.cost TxOp.Write t))
          (mapInsert s.files hash (o, t + 1)),
          [Event.FileModified hash ts]) := by
  have hfs : (mapGet s.files hash).isSome = true := by rw [hfile]; rfl
  unfold IpfsKs.write_file
  rw [charge_spec_success hfile hbal]
  simp [hreg, hfs, hfile]

/-- The success path of `read_file`: registered caller, existing record, cost
covered — debits the cost, bumps the count, emits `FileRead`. -/
theorem read_file_spec_success {s : IpfsKs} {caller : AccountId} {hash : Hash}
    {ts : Timestamp} {o : AccountId} {t : Int}
    (hreg : (mapGet s.balances caller).isSome = true)
    (hfile : mapGet s.files hash = some (o, t))
    (hbal : (IpfsKs.cost TxOp.Read t : Int) ≤ s.balance_or_zero caller) :
    s.read_file caller hash ts
      = some (true, IpfsKs.mk
          (mapInsert s.balances caller (s.balance_or_zero caller - IpfsKs.cost TxOp.Read t))
          (mapInsert s.files hash (o, t + 1)),
          [Event.FileRead hash ts]) := by
  have hfs : (mapGet s.files hash).isSome = true := by rw [hfile]; rfl
  unfold IpfsKs.read_file
  rw [charge_spec_success hfile hbal]
  simp [hreg, hfs, hfile]

/-- `write_file` commutes with replacing the owner of the addressed record:
the result, the emitted events and the state change are those of the original
run with the owner replaced in the output state. -/
theorem write_file_setOwner (s : IpfsKs) (caller : AccountId) (hash : Hash)
    (ts : Timestamp) (o' : AccountId) :
    (s.setOwner hash o').write_file caller hash ts
      = (s.write_file caller hash ts).map
          (fun r => (r.1, r.2.1.setOwner hash o', r.2.2)) := by
  rcases hf : mapGet s.files hash with _ | ⟨o, t⟩
  · have hid : s.setOwner hash o' = s := by unfold IpfsKs.setOwner; rw [hf]
    have hw : s.write_file caller hash ts = some (false, s, []) := by
      unfold IpfsKs.write_file
      by_cases hreg : (mapGet s.balances caller).isSome = false
      · rw [if_pos hreg]
      · rw [if_neg hreg, if_pos (by rw [hf]; rfl)]
    rw [hid, hw]
    simp [hid]
  · have hs' : s.setOwner hash o' = IpfsKs.mk s.balances (mapInsert s.files hash (o', t)) := by
      unfold IpfsKs.setOwner; rw [hf]
    have hf' : mapGet (IpfsKs.mk s.balances (mapInsert s.files hash (o', t))).files hash
        = some (o', t) := mapGet_mapInsert_self _ _ _
    have hbz : (IpfsKs.mk s.balances (mapInsert s.files hash (o', t))).balance_or_zero caller
        = s.balance_or_zero caller := rfl
    by_cases hreg : (mapGet s.balances caller).isSome = false
    · have hw : s.write_file caller hash ts = some (false, s, []) := by
        unfold IpfsKs.write_file; rw [if_pos hreg]
      have hw' : (IpfsKs.mk s.balances (mapInsert s.files hash (o', t))).write_file
            caller hash ts
          = some (false, IpfsKs.mk s.balances (mapInsert s.files hash (o', t)), []) := by
        unfold IpfsKs.write_file; rw [if_pos hreg]
      rw [hs', hw', hw]
      simp [hs']
    · have hreg' : (mapGet s.balances caller).isSome = true := by
        revert hreg; cases (mapGet s.balances caller).isSome <;> simp
      have hfs : (mapGet s.files hash).isSome = true := by rw [hf]; rfl
      have hfs' : (mapGet (IpfsKs.mk s.balances (mapInsert s.files hash (o', t))).files
          hash).isSome = true := by rw [hf']; rfl
      by_cases hcost : (IpfsKs.cost TxOp.Write t : Int) ≤ s.balance_or_zero caller
      · have hw := @write_file_spec_success s caller hash ts o t hreg' hf hcost
        have hw' := @write_file_spec_success
          (IpfsKs.mk s.balances (mapInsert s.files hash (o', t))) caller hash ts o' t
          hreg' hf' (hbz ▸ hcost)
        rw [hs', hw', hw]
        simp [IpfsKs.setOwner, mapGet_mapInsert_self, mapInsert_mapInsert_self, hbz]
      · have hlt := not_le.mp hcost
        have hw : s.write_file caller hash ts = some (false, s, []) := by
          unfold IpfsKs.write_file
          rw [charge_spec_insufficient hf hlt]
          simp [hreg', hfs]
        have hw' : (IpfsKs.mk s.balances (mapInsert s.files hash (o', t))).write_file
              caller hash ts
            = some (false, IpfsKs.mk s.balances (mapInsert s.files hash (o', t)), []) := by
          unfold IpfsKs.write_file
          rw [charge_spec_insufficient hf' (hbz ▸ hlt)]
          simp [hreg', hfs']
        rw [hs', hw', hw]
        simp [hs']

/-- `read_file` commutes with replacing the owner of the addressed record. -/
theorem read_file_setOwner (s : IpfsKs) (caller : AccountId) (hash : Hash)
    (ts : Timestamp) (o' : AccountId) :
    (s.setOwner hash o').read_file caller hash ts
      = (s.read_file caller hash ts).map
          (fun r => (r.1, r.2.1.setOwner hash o', r.2.2)) := by
  rcases hf : mapGet s.files hash with _ | ⟨o, t⟩
  · have hid : s.setOwner hash o' = s := by unfold IpfsKs.setOwner; rw [hf]
    have hw : s.read_file caller hash ts = some (false, s, []) := by
      unfold IpfsKs.read_file
      by_cases hreg : (mapGet s.balances caller).isSome = false
      · rw [if_pos hreg]
      · rw [if_neg hreg, if_pos (by rw [hf]; rfl)]
    rw [hid, hw]
    simp [hid]
  · have hs' : s.setOwner hash o' = IpfsKs.mk s.balances (mapInsert s.files hash (o', t)) := by
      unfold IpfsKs.setOwner; rw [hf]
    have hf' : mapGet (IpfsKs.mk s.balances (mapInsert s.files hash (o', t))).files hash
        = some (o', t) := mapGet_mapInsert_self _ _ _
    have hbz : (IpfsKs.mk s.balances (mapInsert s.files hash (o', t))).balance_or_zero caller
        = s.balance_or_zero caller := rfl
    by_cases hreg : (mapGet s.balances caller).isSome = false
    · have hw : s.read_file caller hash ts = some (false, s, []) := by
        unfold IpfsKs.read_file; rw [if_pos hreg]
      have hw' : (IpfsKs.mk s.balances (mapInsert s.files hash (o', t))).read_file
            caller hash ts
          = some (false, IpfsKs.mk s.balances (mapInsert s.files hash (o', t)), []) := by
        unfold IpfsKs.read_file; rw [if_pos hreg]
      rw [hs', hw', hw]
      simp [hs']
    · have hreg' : (mapGet s.balances caller).isSome = true := by
        revert hreg; cases (mapGet s.balances caller).isSome <;> simp
      have hfs : (mapGet s.files hash).isSome = true := by rw [hf]; rfl
      have hfs' : (mapGet (IpfsKs.mk s.balances (mapInsert s.files hash (o', t))).files
          hash).isSome = true := by rw [hf']; rfl
      by_cases hcost : (IpfsKs.cost TxOp.Read t : Int) ≤ s.balance_or_zero caller
      · have hw := @read_file_spec_success s caller hash ts o t hreg' hf hcost
        have hw' := @read_file_spec_success
          (IpfsKs.mk s.balances (mapInsert s.files hash (o', t))) caller hash ts o' t
          hreg' hf' (hbz ▸ hcost)
        rw [hs', hw', hw]
        simp [IpfsKs.setOwner, mapGet_mapInsert_self, mapInsert_mapInsert_self, hbz]
      · have hlt := not_le.mp hcost
        have hw : s.read_file caller hash ts = some (false, s, []) := by
          unfold IpfsKs.read_file
          rw [charge_spec_insufficient hf hlt]
          simp [hreg', hfs]
        have hw' : (IpfsKs.mk s.balances (mapInsert s.files hash (o', t))).read_file
              caller hash ts
            = some (false, IpfsKs.mk s.balances (mapInsert s.files hash (o', t)), []) := by
          unfold IpfsKs.read_file
          rw [charge_spec_insufficient hf' (hbz ▸ hlt)]
          simp [hreg', hfs']
        rw [hs', hw', hw]
        simp [hs']

/-- `remove_file` commutes with replacing the owner of the addressed record. -/
theorem remove_file_setOwner (s : IpfsKs) (caller : AccountId) (hash : Hash)
    (ts : Timestamp) (o' : AccountId) :
    (s.setOwner hash o').remove_file caller hash ts
      = (let r := s.remove_file caller hash ts
         (r.1, r.2.1.setOwner hash o', r.2.2)) := by
  rcases hf : mapGet s.files hash with _ | ⟨o, t⟩
  · have hid : s.setOwner hash o' = s := by unfold IpfsKs.setOwner; rw [hf]
    rw [hid]
    unfold IpfsKs.remove_file
    by_cases hreg : (mapGet s.balances caller).isSome = false
    · simp [hreg, hid]
    · simp [hreg, hf, hid]
  · have hs' : s.setOwner hash o' = IpfsKs.mk s.balances (mapInsert s.files hash (o', t)) := by
      unfold IpfsKs.setOwner; rw [hf]
    have hf' : mapGet (IpfsKs.mk s.balances (mapInsert s.files hash (o', t))).files hash
        = some (o', t) := mapGet_mapInsert_self _ _ _
    rw [hs']
    unfold IpfsKs.remove_file
    by_cases hreg : (mapGet s.balances caller).isSome = false
    · simp [hreg, hs']
    · simp [hreg, hf, hf', hs']

/-- C7: `write_file`, `read_file` and `remove_file` never consult the owner
stored in the addressed record (there is no permission state in the source at
all): running any of them from a state with the owner of the record for
`hash` replaced yields the same result and events, and the state change of the
original run with only that owner field differing — so any registered account
with sufficient balance can read, write or remove any file it does not own. -/
theorem C7_operations_ignore_owner (s : IpfsKs) (caller : AccountId) (hash : Hash)
    (ts : Timestamp) (o' : AccountId) :
    ((s.setOwner hash o').write_file caller hash ts
      = (s.write_file caller hash ts).map
          (fun r => (r.1, r.2.1.setOwner hash o', r.2.2)))
  ∧ ((s.setOwner hash o').read_file caller hash ts
      = (s.read_file caller hash ts).map
          (fun r => (r.1, r.2.1.setOwner hash o', r.2.2)))
  ∧ ((s.setOwner hash o').remove_file caller hash ts
      = (let r := s.remove_file caller hash ts
         (r.1, r.2.1.setOwner hash o', r.2.2))) :=
  ⟨write_file_setOwner s caller hash ts o', read_file_setOwner s caller hash ts o',
    remove_file_setOwner s caller hash ts o'⟩

/-- C6: in the permission model the spec prescribes for each content record
(the record table starts empty, so an account that was never granted anything
has no entry): after `grant(A, Write)`, `has_permission(A, Write)` is true and
`has_permission(A, Read)` is false; after a subsequent `revoke(A, Write)`,
`has_permission(A, Write)` is false. -/
theorem C6_grant_then_revoke_write (tbl : PermTable) (a : AccountId)
    (h0 : mapGet tbl a = none) :
    has_permission (grant tbl a PermKind.Write).2 a PermKind.Write = true
  ∧ has_permission (grant tbl a PermKind.Write).2 a PermKind.Read = false
  ∧ has_permission (revoke (grant tbl a PermKind.Write).2 a PermKind.Write).2 a
      PermKind.Write = false := by
  unfold grant revoke has_permission
  rw [h0]
  simp [mapGet_mapInsert_self, mapInsert_mapInsert_self]

/-- C6 witness: the grant–query–revoke–query sequence on the empty permission
table of a fresh record, account 0. -/
theorem C6_grant_then_revoke_write_witness :
    has_permission (grant [] 0 PermKind.Write).2 0 PermKind.Write = true
  ∧ has_permission (grant [] 0 PermKind.Write).2 0 PermKind.Read = false
  ∧ has_permission (revoke (grant [] 0 PermKind.Write).2 0 PermKind.Write).2 0
      PermKind.Write = false :=
  C6_grant_then_revoke_write [] 0 rfl

/-- With all ledger entries non-negative, `balance_or_zero` is non-negative. -/
theorem balance_or_zero_nonneg {s : IpfsKs} (hs : s.allNonneg) (a : AccountId) :
    0 ≤ s.balance_or_zero a := by
  unfold IpfsKs.balance_or_zero
  cases hm : mapGet s.balances a with
  | none => simp
  | some b => simpa using hs (a, b) (mapGet_mem hm)

/-- Inserting a non-negative value preserves ledger non-negativity. -/
theorem allNonneg_insert {m : List (AccountId × Int)} (hm : ∀ p ∈ m, 0 ≤ p.2)
    {a : AccountId} {v : Int} (hv : 0 ≤ v) : ∀ p ∈ mapInsert m a v, 0 ≤ p.2 := by
  intro p hp
  rcases mem_mapInsert hp with h | h
  · rw [h]; exact hv
  · exact hm p h

/-- `charge` preserves ledger non-negativity: its only subtraction is guarded
by the balance check. -/
theorem charge_allNonneg {s : IpfsKs} {a : AccountId} {h : Hash} {op : TxOp}
    {r : Bool × IpfsKs} (hc : s.charge a h op = some r) (hs : s.allNonneg) :
    r.2.allNonneg := by
  unfold IpfsKs.charge at hc
  split at hc
  · cases hc
  · next stats heq =>
    simp only [] at hc
    by_cases hgt : (IpfsKs.cost op stats.2 : Int) > s.balance_or_zero a
    · rw [if_pos hgt] at hc
      cases hc
      exact hs
    · rw [if_neg hgt] at hc
      cases hc
      refine allNonneg_insert hs ?_
      have hb := balance_or_zero_nonneg hs a
      have hle := not_lt.mp hgt
      omega

/-- A non-panicking `add_file` preserves ledger non-negativity. -/
theorem add_file_allNonneg {s : IpfsKs} {c : AccountId} {h : Hash} {ts : Timestamp}
    {r : Bool × IpfsKs × List Event} (hr : s.add_file c h ts = some r)
    (hs : s.allNonneg) : r.2.1.allNonneg := by
  unfold IpfsKs.add_file at hr
  split at hr
  · cases hr; exact hs
  · split at hr
    · cases hr; exact hs
    · split at hr
      · cases hr
      · next s1 heq => cases hr; exact charge_allNonneg heq hs
      · next s1 heq => cases hr; exact charge_allNonneg heq hs

/-- A non-panicking `write_file` preserves ledger non-negativity. -/
theorem write_file_allNonneg {s : IpfsKs} {c : AccountId} {h : Hash} {ts : Timestamp}
    {r : Bool × IpfsKs × List Event} (hr : s.write_file c h ts = some r)
    (hs : s.allNonneg) : r.2.1.allNonneg := by
  unfold IpfsKs.write_file at hr
  split at hr
  · cases hr; exact hs
  · split at hr
    · cases hr; exact hs
    · split at hr
      · cases hr
      · next s1 heq => cases hr; exact charge_allNonneg heq hs
      · next s1 heq =>
        split at hr
        · cases hr
        · next stats heq2 => cases hr; exact charge_allNonneg heq hs

/-- A non-panicking `read_file` preserves ledger non-negativity. -/
theorem read_file_allNonneg {s : IpfsKs} {c : AccountId} {h : Hash} {ts : Timestamp}
    {r : Bool × IpfsKs × List Event} (hr : s.read_file c h ts = some r)
    (hs : s.allNonneg) : r.2.1.allNonneg := by
  unfold IpfsKs.read_file at hr
  split at hr
  · cases hr; exact hs
  · split at hr
    · cases hr; exact hs
    · split at hr
      · cases hr
      · next s1 heq => cases hr; exact charge_allNonneg heq hs
      · next s1 heq =>
        split at hr
        · cases hr
        · next stats heq2 => cases hr; exact charge_allNonneg heq hs

/-- Every single public call preserves ledger non-negativity: each of the
three subtractions (`withdraw` and the debit inside `charge`) is guarded by a
prior balance comparison, and the two insertions of fresh values store a cast
`u128` or a value reduced modulo `2 ^ 128`, both non-negative. -/
theorem step_allNonneg {s : IpfsKs} (hs : s.allNonneg) (op : Op) :
    (s.step op).allNonneg := by
  cases op with
  | register a ib =>
    show ((s.register a ib).2).allNonneg
    unfold IpfsKs.register
    split
    · exact hs
    · exact allNonneg_insert hs (Int.natCast_nonneg ib)
  | deposit c v =>
    show ((s.deposit c v).2).allNonneg
    unfold IpfsKs.deposit
    split
    · exact hs
    · exact allNonneg_insert hs (Int.emod_nonneg _ (by norm_num))
  | withdraw c v =>
    show ((s.withdraw c v).2).allNonneg
    unfold IpfsKs.withdraw
    split
    · exact hs
    · simp only []
      split
      · exact hs
      · next hle =>
        refine allNonneg_insert hs ?_
        have := not_lt.mp hle
        omega
  | add_file c h ts =>
    show IpfsKs.allNonneg (match s.add_file c h ts with | none => s | some r => r.2.1)
    rcases hr : s.add_file c h ts with _ | r
    · exact hs
    · exact add_file_allNonneg hr hs
  | remove_file c h ts =>
    show ((s.remove_file c h ts).2.1).allNonneg
    unfold IpfsKs.remove_file
    split
    · exact hs
    · split
      · exact hs
      · exact hs
  | write_file c h ts =>
    show IpfsKs.allNonneg (match s.write_file c h ts with | none => s | some r => r.2.1)
    rcases hr : s.write_file c h ts with _ | r
    · exact hs
    · exact write_file_allNonneg hr hs
  | read_file c h ts =>
    show IpfsKs.allNonneg (match s.read_file c h ts with | none => s | some r => r.2.1)
    rcases hr : s.read_file c h ts with _ | r
    · exact hs
    · exact read_file_allNonneg hr hs

/-- Non-negativity is preserved along any fold of public calls. -/
theorem foldl_step_allNonneg (ops : List Op) {s : IpfsKs} (hs : s.allNonneg) :
    (ops.foldl IpfsKs.step s).allNonneg := by
  induction ops generalizing s with
  | nil => exact hs
  | cons op rest ih => exact ih (step_allNonneg hs op)

/-- C10: starting from the empty contract, no sequence of public operations
can drive any account balance below zero — every subtraction in the source is
guarded by a preceding balance check, so the ledger stays non-negative at
every observable point. -/
theorem C10_balances_never_negative (ops : List Op) (a : AccountId) :
    0 ≤ (IpfsKs.run ops).balance_or_zero a := by
  refine balance_or_zero_nonneg ?_ a
  refine foldl_step_allNonneg ops ?_
  intro p hp
  cases hp
